import Mathlib

/-!
Verification of the tkd_competition_manager bracket core (`src/app.py`).

Shallow embedding of the bracket builder (`generate_bracket`), the
advancement engine (`record_result`, `ui_record_result`), division deletion
(`edit_division` DELETE, `ui_delete_division`) and the bracket read
operation (`get_bracket`) from `src/app.py`.

Modelling conventions:
* The SQLite/SQLAlchemy state is a `DB` value (lists of rows).  A route is a
  function from the committed pre-state to `(Option RecordError) × DB`: the
  response kind and the committed post-state.  Session mutations that are
  never followed by `db.session.commit()` are rolled back when the request
  ends (Flask-SQLAlchemy removes the session at teardown), so an error path
  returns the original state.
* `random.shuffle` is modelled by letting the competitor list argument be
  the already-shuffled order: every property proved here is quantified over
  all orders, and counts are permutation invariant.
* Python truthiness on ids: `if not x` is true for `None` and `0`.  Ids of
  rows autogenerated by SQLite start at 1; `falsyId` models the check.
* `math.ceil(math.log2(n))` is modelled by the exact `ceilLog2` (the float
  computation is exact on every realistic competitor count).
-/

/-- A `Competitor` row (id, name, owning division). -/
structure Competitor where
  id : Nat
  name : String
  division_id : Nat
deriving Repr, DecidableEq

/-- A `Division` row. -/
structure Division where
  id : Nat
  name : String
deriving Repr, DecidableEq

/-- A `Match` row, mirroring the columns of `class Match` in `src/app.py`
(the `ring` relationship is the `ring_id` column; competitor relationships
are the `*_id` columns). -/
structure Match where
  id : Nat
  division_id : Nat
  ring_id : Option Nat
  competitor1_id : Option Nat
  competitor2_id : Option Nat
  winner_id : Option Nat
  next_match_id : Option Nat
  match_number : Option Nat
  status : String
  round_name : String
deriving Repr, DecidableEq

/-- The committed database state (rings omitted: no claim mentions them).
`matchRows` is the `match` table (`matches` is a Lean keyword). -/
structure DB where
  divisions : List Division
  competitors : List Competitor
  matchRows : List Match
deriving Repr, DecidableEq

/-- Python truthiness of an optional id: `None` and `0` are falsy. -/
def falsyId : Option Nat → Bool
  | none => true
  | some n => n == 0

/-- Outcome kinds of the mutating routes.  `noResponse` models a Flask view
function falling off the end (returning `None`), which produces a 500 error
and commits nothing; `internalError` models an uncaught exception
(`AttributeError` / `IntegrityError`), likewise committing nothing. -/
inductive RecordError where
  | notFound
  | missingWinner
  | internalError
  | noResponse
deriving Repr, DecidableEq

/-- The value `2 ^ ceilLog2 n` is the bracket size `2 ** math.ceil(math.log2(n))` of
`generate_bracket`.  Structural fuel recursion so that concrete brackets
evaluate by `decide`/`rfl`; proved equal to `Nat.clog 2` below. -/
def ceilLog2Aux : Nat → Nat → Nat
  | 0, _ => 0
  | fuel + 1, n => if n ≤ 1 then 0 else ceilLog2Aux fuel ((n + 1) / 2) + 1

/-- Here `ceilLog2 n = ⌈log₂ n⌉` for `n ≥ 1`. -/
def ceilLog2 (n : Nat) : Nat := ceilLog2Aux n n

/-- Step 2–3 of `generate_bracket`: the two-pass "deal" of the (shuffled)
competitor list into `m = num_first_round_matches` pairings.  Competitor at
flat index `i` goes to pairing `i % m`, slot `i / m`; equivalently pairing
`j` receives competitors `j` and `m + j` of the list (the source guarantees
`len(competitors) ≤ 2 * m`, so slots beyond the list stay `None`). -/
def dealPairings (competitors : List Competitor) (m : Nat) :
    List (Option Competitor × Option Competitor) :=
  (List.range m).map (fun j => (competitors[j]?, competitors[m + j]?))

/-- Step 3 of `generate_bracket`: one round-1 `Match` row per pairing,
auto-advancing byes (`status = "Completed (Bye)"`, winner = the lone
occupant) exactly as the two `if comp1 and not comp2` branches do. -/
def mkRound1Match (div_id : Nat) (mid : Nat)
    (pair : Option Competitor × Option Competitor) : Match :=
  { id := mid
    division_id := div_id
    ring_id := none
    competitor1_id := pair.1.map (fun c => c.id)
    competitor2_id := pair.2.map (fun c => c.id)
    winner_id :=
      match pair.1, pair.2 with
      | some c, none => some c.id
      | none, some c => some c.id
      | _, _ => none
    next_match_id := none
    match_number := none
    status :=
      match pair.1, pair.2 with
      | some _, none => "Completed (Bye)"
      | none, some _ => "Completed (Bye)"
      | _, _ => "Pending"
    round_name := "Round 1" }

/-- Round-1 rows in order; `db.session.flush()` hands them consecutive ids
starting at `firstId`. -/
def round1Matches (div_id : Nat) (firstId : Nat) :
    List (Option Competitor × Option Competitor) → List Match
  | [] => []
  | p :: ps => mkRound1Match div_id firstId p :: round1Matches div_id (firstId + 1) ps

/-- Grouping `current_round_matches` in consecutive pairs
(`for i in range(0, len, 2)`); reachable calls always have even length. -/
def pairUp : List Match → List (Match × Match)
  | m1 :: m2 :: rest => (m1, m2) :: pairUp rest
  | _ => []

/-- The round-naming policy of step 4 of `generate_bracket`, keyed on the
length of the round just completed. -/
def roundName (prevCount : Nat) (round_num : Nat) : String :=
  if prevCount == 2 then "Final"
  else if prevCount == 4 then "Semi-Final"
  else if prevCount == 8 then "Quarter-Final"
  else "Round " ++ toString round_num

/-- A next-round `Match` row: created `Pending` with no slots, then the bye
winners of its two feeder matches are pushed in (`if prev_match1.winner_id:
new_match.competitor1_id = prev_match1.winner_id`, and likewise slot 2). -/
def mkNextMatch (div_id : Nat) (mid : Nat) (r_name : String)
    (prev1 prev2 : Match) : Match :=
  { id := mid
    division_id := div_id
    ring_id := none
    competitor1_id := prev1.winner_id
    competitor2_id := prev2.winner_id
    winner_id := none
    next_match_id := none
    match_number := none
    status := "Pending"
    round_name := r_name }

/-- The next-round rows of one `while` iteration, with consecutive fresh ids. -/
def nextRoundMatches (div_id : Nat) (nid : Nat) (r_name : String) :
    List (Match × Match) → List Match
  | [] => []
  | (p1, p2) :: ps =>
      mkNextMatch div_id nid r_name p1 p2 :: nextRoundMatches div_id (nid + 1) r_name ps

/-- The linking step `prev_match1.next_match_id = new_match.id` (and for
`prev_match2`): the previous round, each pair now pointing at its new match. -/
def linkPairs (nid : Nat) : List (Match × Match) → List Match
  | [] => []
  | (p1, p2) :: ps =>
      { p1 with next_match_id := some nid } ::
      { p2 with next_match_id := some nid } :: linkPairs (nid + 1) ps

/-- Step 4 of `generate_bracket`: the `while len(current_round_matches) > 1`
loop, building rounds bottom-up.  `fuel` bounds the iteration count (the
round count `log₂` of the initial length; callers pass at least that much).
Returns all rows in insertion order: earlier rounds (with their
`next_match_id` links set) followed by the final round. -/
def buildRoundsAux (div_id : Nat) :
    Nat → List Match → Nat → Nat → List Match → List Match
  | 0, current, _, _, acc => acc ++ current
  | fuel + 1, current, round_num, nextId, acc =>
      if current.length ≤ 1 then acc ++ current
      else
        let pairs := pairUp current
        let r_name := roundName current.length round_num
        let newMs := nextRoundMatches div_id nextId r_name pairs
        let linked := linkPairs nextId pairs
        buildRoundsAux div_id fuel newMs (round_num + 1) (nextId + pairs.length)
          (acc ++ linked)

/-- The route `generate_bracket` for a division whose competitor list (already
shuffled) is `competitors`; `firstId` is the first id SQLite hands out for
the new `Match` rows.  Returns the committed rows, or the 400 error when
fewer than two competitors exist. -/
def generate_bracket (div_id : Nat) (competitors : List Competitor)
    (firstId : Nat) : Except String (List Match) :=
  let num_comp := competitors.length
  if num_comp < 2 then
    Except.error "Need at least 2 competitors to generate a bracket."
  else
    let next_power_of_2 := 2 ^ ceilLog2 num_comp
    let num_first_round_matches := next_power_of_2 / 2
    let pairings := dealPairings competitors num_first_round_matches
    let round1 := round1Matches div_id firstId pairings
    Except.ok (buildRoundsAux div_id num_first_round_matches round1 2
      (firstId + num_first_round_matches) [])

/-- Writing one `Match` row back (`db.session.commit()` of a mutated ORM
object): the row with its primary key is replaced. -/
def updateMatch (db : DB) (m : Match) : DB :=
  { db with matchRows := db.matchRows.map (fun x => if x.id == m.id then m else x) }

/-- The advancement step of `record_result`/`ui_record_result`: the winner
goes into `next_match`'s first falsy slot, slot 1 checked first; if both are
occupied nothing happens. -/
def advanceInto (nm : Match) (w : Nat) : Match :=
  if falsyId nm.competitor1_id then { nm with competitor1_id := some w }
  else if falsyId nm.competitor2_id then { nm with competitor2_id := some w }
  else nm

/-- Route `POST /matches/<match_id>/result` (`record_result` in `src/app.py`).
The view sets `match.status = status` before any validation, but that
session write is only committed on the `Completed`/`Disqualification` path;
for every other status the function falls off the end (Flask 500, no
commit, session rolled back), modelled as `noResponse` with the original
state.  A missing `next_match` row would raise `AttributeError`
(`internalError`), also before any commit. -/
def record_result (db : DB) (match_id : Nat) (status : String)
    (winner_id : Option Nat) : Option RecordError × DB :=
  match db.matchRows.find? (fun x => x.id == match_id) with
  | none => (some RecordError.notFound, db)
  | some m =>
    if status == "Completed" || status == "Disqualification" then
      if falsyId winner_id then (some RecordError.missingWinner, db)
      else
        let w := winner_id.getD 0
        let m2 := { m with status := status, winner_id := some w }
        let db1 := updateMatch db m2
        match m2.next_match_id with
        | none => (none, db1)
        | some nid =>
          match db1.matchRows.find? (fun x => x.id == nid) with
          | none => (some RecordError.internalError, db)
          | some nm => (none, updateMatch db1 (advanceInto nm w))
    else (some RecordError.noResponse, db)

/-- Route `POST /ui/matches/<match_id>/result` (`ui_record_result` in
`src/app.py`).  Identical to `record_result` except that an `"In Progress"`
status is committed (status only, no advancement) and that the winner comes
from the form as a string, so only an absent/empty value is falsy. -/
def ui_record_result (db : DB) (match_id : Nat) (status : String)
    (winner_id : Option Nat) : Option RecordError × DB :=
  match db.matchRows.find? (fun x => x.id == match_id) with
  | none => (some RecordError.notFound, db)
  | some m =>
    if status == "In Progress" then
      (none, updateMatch db { m with status := status })
    else if status == "Completed" || status == "Disqualification" then
      match winner_id with
      | none => (some RecordError.missingWinner, db)
      | some w =>
        let m2 := { m with status := status, winner_id := some w }
        let db1 := updateMatch db m2
        match m2.next_match_id with
        | none => (none, db1)
        | some nid =>
          match db1.matchRows.find? (fun x => x.id == nid) with
          | none => (some RecordError.internalError, db)
          | some nm => (none, updateMatch db1 (advanceInto nm w))
    else (some RecordError.noResponse, db)

/-- Route `DELETE /ui/divisions/<div_id>` (`ui_delete_division`): bulk-deletes the
division's `Match` rows, then its `Competitor` rows, then the division. -/
def ui_delete_division (db : DB) (div_id : Nat) : Option RecordError × DB :=
  match db.divisions.find? (fun d => d.id == div_id) with
  | none => (some RecordError.notFound, db)
  | some _ =>
      (none,
        { divisions := db.divisions.filter (fun d => !(d.id == div_id))
          competitors := db.competitors.filter (fun c => !(c.division_id == div_id))
          matchRows := db.matchRows.filter (fun m => !(m.division_id == div_id)) })

/-- Route `DELETE /divisions/<div_id>` (`edit_division`): only
`db.session.delete(division)` is issued — the route contains no deletion of
the division's `Match` or `Competitor` rows.  SQLAlchemy's default
relationship cascade nulls the children's foreign keys on flush, which the
`nullable=False` schema rejects, so when any competitor or match still
references the division the commit raises `IntegrityError` (500, rollback);
a childless division row is deleted.  In no case are child rows deleted. -/
def edit_division_delete (db : DB) (div_id : Nat) : Option RecordError × DB :=
  match db.divisions.find? (fun d => d.id == div_id) with
  | none => (some RecordError.notFound, db)
  | some _ =>
      if db.competitors.any (fun c => c.division_id == div_id) ||
          db.matchRows.any (fun m => m.division_id == div_id) then
        (some RecordError.internalError, db)
      else
        (none, { db with divisions := db.divisions.filter (fun d => !(d.id == div_id)) })

/-- Resolved competitor display data in a bracket entry. -/
structure CompData where
  id : Nat
  name : String
deriving Repr, DecidableEq

/-- One serialized match of `GET /divisions/<div_id>/bracket`: exactly the
dictionary built in `get_bracket` — note that `competitor1`/`competitor2`
are resolved to id + name while the winner is the bare `winner_id`. -/
structure BracketEntry where
  match_id : Nat
  round_name : String
  status : String
  ring_id : Option Nat
  next_match_id : Option Nat
  competitor1 : Option CompData
  competitor2 : Option CompData
  winner_id : Option Nat
deriving Repr, DecidableEq

/-- The helper `get_comp_data` of `get_bracket`: falsy id → `None`,
otherwise the competitor row resolved to `{"id": ..., "name": ...}`
(`None` when the row does not exist). -/
def get_comp_data (db : DB) (comp_id : Option Nat) : Option CompData :=
  if falsyId comp_id then none
  else
    match db.competitors.find? (fun c => c.id == comp_id.getD 0) with
    | none => none
    | some c => some { id := c.id, name := c.name }

/-- Route `GET /divisions/<div_id>/bracket` (`get_bracket`): 404 when the division
has no matches, otherwise one entry per `Match` row of the division. -/
def get_bracket (db : DB) (div_id : Nat) : Except String (List BracketEntry) :=
  let ms := db.matchRows.filter (fun m => m.division_id == div_id)
  if ms.isEmpty then Except.error "No bracket found for this division."
  else
    Except.ok (ms.map (fun m =>
      { match_id := m.id
        round_name := m.round_name
        status := m.status
        ring_id := m.ring_id
        next_match_id := m.next_match_id
        competitor1 := get_comp_data db m.competitor1_id
        competitor2 := get_comp_data db m.competitor2_id
        winner_id := m.winner_id }))

/-- Modelled from the spec (§6 read interface), for comparison with
`get_bracket`: the entry the spec describes additionally resolves the
winner's display data (id + name). -/
structure SpecBracketEntry where
  match_id : Nat
  round_name : String
  status : String
  ring_id : Option Nat
  next_match_id : Option Nat
  competitor1 : Option CompData
  competitor2 : Option CompData
  winner : Option CompData
deriving Repr, DecidableEq

/-- Modelled from the spec (§6 read interface): `get_bracket` as the spec
words it, with resolved winner display data. -/
def get_bracket_spec (db : DB) (div_id : Nat) :
    Except String (List SpecBracketEntry) :=
  let ms := db.matchRows.filter (fun m => m.division_id == div_id)
  if ms.isEmpty then Except.error "No bracket found for this division."
  else
    Except.ok (ms.map (fun m =>
      { match_id := m.id
        round_name := m.round_name
        status := m.status
        ring_id := m.ring_id
        next_match_id := m.next_match_id
        competitor1 := get_comp_data db m.competitor1_id
        competitor2 := get_comp_data db m.competitor2_id
        winner := get_comp_data db m.winner_id }))

instance {ε α : Type} [DecidableEq ε] [DecidableEq α] : DecidableEq (Except ε α) :=
  fun x y =>
    match x, y with
    | .ok a, .ok b =>
        if h : a = b then isTrue (by rw [h])
        else isFalse (by intro hh; cases hh; exact h rfl)
    | .error a, .error b =>
        if h : a = b then isTrue (by rw [h])
        else isFalse (by intro hh; cases hh; exact h rfl)
    | .ok _, .error _ => isFalse (by intro h; cases h)
    | .error _, .ok _ => isFalse (by intro h; cases h)

/-! Section: Arithmetic facts about `ceilLog2` -/

theorem ceilLog2Aux_eq_clog :
    ∀ fuel n, n ≤ fuel → ceilLog2Aux fuel n = Nat.clog 2 n := by
  intro fuel
  induction fuel with
  | zero =>
      intro n hn
      interval_cases n
      simp [ceilLog2Aux]
  | succ f ih =>
      intro n hn
      by_cases h1 : n ≤ 1
      · rw [ceilLog2Aux, if_pos h1, Nat.clog_of_right_le_one h1]
      · have h2 : 2 ≤ n := by omega
        have hrec : (n + 1) / 2 ≤ f := by omega
        rw [ceilLog2Aux, if_neg h1, ih _ hrec,
          Nat.clog_of_two_le (by norm_num) h2]
        norm_num

theorem ceilLog2_eq_clog (n : Nat) : ceilLog2 n = Nat.clog 2 n :=
  ceilLog2Aux_eq_clog n n (Nat.le_refl n)

/-- For `n ≥ 2` the bracket size is a genuine doubling: `2 ^ ceilLog2 n =
2 * (2 ^ (ceilLog2 n - 1))`. -/
theorem ceilLog2_pos {n : Nat} (hn : 2 ≤ n) : 0 < ceilLog2 n := by
  rw [ceilLog2_eq_clog]; exact Nat.clog_pos (by norm_num) hn

/-- Every `n` fits in the bracket: `n ≤ 2 ^ ceilLog2 n`. -/
theorem le_bracketSize (n : Nat) : n ≤ 2 ^ ceilLog2 n := by
  rw [ceilLog2_eq_clog]; exact Nat.le_pow_clog (by norm_num) n

/-- The bracket is tight: half of it is smaller than `n` (`n ≥ 2`). -/
theorem half_bracketSize_lt {n : Nat} (hn : 2 ≤ n) :
    2 ^ (ceilLog2 n - 1) < n := by
  rw [ceilLog2_eq_clog]
  exact Nat.pow_pred_clog_lt_self (by norm_num) (by omega)

/-! Section: Shape lemmas for the builder -/

theorem pairUp_length : ∀ l : List Match, (pairUp l).length = l.length / 2
  | [] => by simp [pairUp]
  | [_] => by simp [pairUp]
  | _ :: _ :: rest => by
      rw [pairUp, List.length_cons, pairUp_length rest]
      simp only [List.length_cons]
      omega

theorem nextRoundMatches_length (d : Nat) (r : String) :
    ∀ (ps : List (Match × Match)) (nid : Nat),
      (nextRoundMatches d nid r ps).length = ps.length
  | [], _ => rfl
  | (_, _) :: ps, nid => by
      rw [nextRoundMatches, List.length_cons, List.length_cons,
        nextRoundMatches_length d r ps (nid + 1)]

theorem linkPairs_length :
    ∀ (ps : List (Match × Match)) (nid : Nat),
      (linkPairs nid ps).length = 2 * ps.length
  | [], _ => rfl
  | (_, _) :: ps, nid => by
      rw [linkPairs, List.length_cons, List.length_cons,
        linkPairs_length ps (nid + 1)]
      simp only [List.length_cons]
      omega

theorem round1Matches_length (d : Nat) :
    ∀ (ps : List (Option Competitor × Option Competitor)) (fid : Nat),
      (round1Matches d fid ps).length = ps.length
  | [], _ => rfl
  | _ :: ps, fid => by
      rw [round1Matches, List.length_cons, List.length_cons,
        round1Matches_length d ps (fid + 1)]

theorem dealPairings_length (cs : List Competitor) (m : Nat) :
    (dealPairings cs m).length = m := by
  rw [dealPairings, List.length_map, List.length_range]

/-- A full run of the `while` loop starting from `2 ^ k` matches appends a
complete upper tree: `2 * 2 ^ k - 1` rows come out of `2 ^ k` rows in. -/
theorem buildRoundsAux_length (d : Nat) :
    ∀ (k fuel : Nat) (current : List Match) (round_num nextId : Nat)
      (acc : List Match), current.length = 2 ^ k → k ≤ fuel →
      (buildRoundsAux d fuel current round_num nextId acc).length =
        acc.length + 2 * current.length - 1 := by
  intro k
  induction k with
  | zero =>
      intro fuel current round_num nextId acc hc _
      have h1 : current.length ≤ 1 := by simp [hc]
      cases fuel with
      | zero => rw [buildRoundsAux, List.length_append]; omega
      | succ f => rw [buildRoundsAux, if_pos h1, List.length_append]; omega
  | succ k ih =>
      intro fuel current round_num nextId acc hc hf
      cases fuel with
      | zero => omega
      | succ f =>
          have h2 : ¬ current.length ≤ 1 := by
            rw [hc]
            have : 2 ^ 1 ≤ 2 ^ (k + 1) := Nat.pow_le_pow_right (by norm_num) (by omega)
            omega
          rw [buildRoundsAux, if_neg h2]
          have hpairs : (pairUp current).length = 2 ^ k := by
            rw [pairUp_length, hc, Nat.pow_succ]
            omega
          have hnext : (nextRoundMatches d nextId
              (roundName current.length round_num) (pairUp current)).length = 2 ^ k := by
            rw [nextRoundMatches_length, hpairs]
          rw [ih f _ (round_num + 1) (nextId + (pairUp current).length)
              (acc ++ linkPairs nextId (pairUp current)) hnext (by omega)]
          rw [List.length_append, linkPairs_length, hpairs, hnext, hc, Nat.pow_succ]
          have : 1 ≤ 2 ^ k := Nat.one_le_two_pow
          omega

/-- Total row count of a generated bracket: `2 ^ ceilLog2 n - 1`, i.e. the
bracket size minus one, for every competitor count `n ≥ 2`. -/
theorem generate_bracket_length (div_id firstId : Nat)
    (cs : List Competitor) (hn : 2 ≤ cs.length) :
    ∃ ms, generate_bracket div_id cs firstId = Except.ok ms ∧
      ms.length = 2 ^ ceilLog2 cs.length - 1 := by
  have hlt : ¬ cs.length < 2 := by omega
  simp only [generate_bracket, hlt, if_false]
  refine ⟨_, rfl, ?_⟩
  · have hc : 0 < ceilLog2 cs.length := ceilLog2_pos hn
    have hhalf : 2 ^ ceilLog2 cs.length / 2 = 2 ^ (ceilLog2 cs.length - 1) := by
      rcases Nat.exists_eq_add_of_lt hc with ⟨c, hcc⟩
      rw [hcc]
      simp [Nat.pow_succ]
    have hr1 : (round1Matches div_id firstId
        (dealPairings cs (2 ^ ceilLog2 cs.length / 2))).length =
        2 ^ (ceilLog2 cs.length - 1) := by
      rw [round1Matches_length, dealPairings_length, hhalf]
    have hfuel : ceilLog2 cs.length - 1 ≤ 2 ^ ceilLog2 cs.length / 2 := by
      rw [hhalf]
      exact Nat.le_of_lt (Nat.lt_two_pow _)
    rw [buildRoundsAux_length div_id (ceilLog2 cs.length - 1) _ _ _ _ _ hr1 hfuel,
      hr1, List.length_nil]
    rcases Nat.exists_eq_add_of_lt hc with ⟨c, hcc⟩
    rw [hcc]
    simp only [Nat.zero_add, Nat.add_sub_cancel, Nat.pow_succ]
    omega

/-! Section: Counting bye matches -/

/-- Number of rows with `status = "Completed (Bye)"`. -/
def countBye (l : List Match) : Nat :=
  l.countP (fun x => x.status == "Completed (Bye)")

/-- Whether a pairing becomes a bye (exactly one occupant). -/
def isByePair : Option Competitor × Option Competitor → Bool
  | (some _, none) => true
  | (none, some _) => true
  | _ => false

theorem countBye_nil : countBye [] = 0 := rfl

theorem countBye_round1Matches (d : Nat) :
    ∀ (ps : List (Option Competitor × Option Competitor)) (fid : Nat),
      countBye (round1Matches d fid ps) = ps.countP isByePair
  | [], _ => rfl
  | p :: ps, fid => by
      rw [round1Matches]
      simp only [countBye, List.countP_cons]
      have ih := countBye_round1Matches d ps (fid + 1)
      simp only [countBye] at ih
      rw [ih]
      rcases p with ⟨p1, p2⟩
      rcases p1 with _ | c1 <;> rcases p2 with _ | c2 <;> rfl

theorem countBye_nextRoundMatches (d : Nat) (r : String) :
    ∀ (ps : List (Match × Match)) (nid : Nat),
      countBye (nextRoundMatches d nid r ps) = 0
  | [], _ => rfl
  | (_, _) :: ps, nid => by
      rw [nextRoundMatches]
      simp only [countBye, List.countP_cons]
      have ih := countBye_nextRoundMatches d r ps (nid + 1)
      simp only [countBye] at ih
      rw [ih]
      rfl

theorem countBye_linkPairs_pairUp :
    ∀ (l : List Match) (nid : Nat), l.length % 2 = 0 →
      countBye (linkPairs nid (pairUp l)) = countBye l
  | [], _, _ => rfl
  | [_], _, h => by simp at h
  | a :: b :: rest, nid, h => by
      have hr : rest.length % 2 = 0 := by
        simp only [List.length_cons] at h
        omega
      rw [pairUp, linkPairs]
      simp only [countBye, List.countP_cons]
      have ih := countBye_linkPairs_pairUp rest (nid + 1) hr
      simp only [countBye] at ih
      rw [ih]

/-- Over a full run of the `while` loop, the bye count is exactly the bye
count of the starting round: later rounds are created `Pending` and linking
does not touch `status`. -/
theorem buildRoundsAux_countBye (d : Nat) :
    ∀ (k fuel : Nat) (current : List Match) (round_num nextId : Nat)
      (acc : List Match), current.length = 2 ^ k → k ≤ fuel →
      countBye (buildRoundsAux d fuel current round_num nextId acc) =
        countBye acc + countBye current := by
  intro k
  induction k with
  | zero =>
      intro fuel current round_num nextId acc hc _
      have h1 : current.length ≤ 1 := by simp [hc]
      cases fuel with
      | zero => rw [buildRoundsAux]; simp [countBye]
      | succ f => rw [buildRoundsAux, if_pos h1]; simp [countBye]
  | succ k ih =>
      intro fuel current round_num nextId acc hc hf
      cases fuel with
      | zero => omega
      | succ f =>
          have h2 : ¬ current.length ≤ 1 := by
            rw [hc]
            have : 2 ^ 1 ≤ 2 ^ (k + 1) := Nat.pow_le_pow_right (by norm_num) (by omega)
            omega
          rw [buildRoundsAux, if_neg h2]
          have heven : current.length % 2 = 0 := by
            rw [hc, Nat.pow_succ]; omega
          have hnext : (nextRoundMatches d nextId
              (roundName current.length round_num) (pairUp current)).length = 2 ^ k := by
            rw [nextRoundMatches_length, pairUp_length, hc, Nat.pow_succ]; omega
          rw [ih f _ (round_num + 1) (nextId + (pairUp current).length)
              (acc ++ linkPairs nextId (pairUp current)) hnext (by omega)]
          have hz := countBye_nextRoundMatches d
            (roundName current.length round_num) (pairUp current) nextId
          have hl := countBye_linkPairs_pairUp current nextId heven
          simp only [countBye, List.countP_append] at *
          rw [hz, hl]
          omega

theorem countP_range_ge : ∀ (m t : Nat),
    (List.range m).countP (fun j => decide (t ≤ j)) = m - t
  | 0, t => by simp
  | m + 1, t => by
      rw [List.range_succ, List.countP_append, countP_range_ge m t,
        List.countP_singleton]
      by_cases h : t ≤ m
      · rw [if_pos (by simpa using h)]; omega
      · rw [if_neg (by simpa using h)]; omega

/-- The deal rule spreads the competitors so that exactly `2 * m - n`
pairings receive a single competitor, when `m < n ≤ 2 * m`. -/
theorem countP_dealPairings (cs : List Competitor) (m : Nat)
    (hm : m < cs.length) (h2m : cs.length ≤ 2 * m) :
    (dealPairings cs m).countP isByePair = 2 * m - cs.length := by
  rw [dealPairings, List.countP_map]
  have hcongr : ∀ j ∈ List.range m,
      (isByePair ∘ fun j => (cs[j]?, cs[m + j]?)) j = true ↔
        (fun j => decide (cs.length ≤ m + j)) j = true := by
    intro j hj
    have hjm : j < m := List.mem_range.mp hj
    have hjl : j < cs.length := by omega
    simp only [Function.comp_apply, List.getElem?_eq_getElem hjl]
    by_cases hs : m + j < cs.length
    · rw [List.getElem?_eq_getElem hs]
      simp [isByePair]
      omega
    · rw [List.getElem?_eq_none (by omega)]
      simp [isByePair]
      omega
  rw [List.countP_congr hcongr]
  have := countP_range_ge m (cs.length - m)
  have hcongr2 : ∀ j ∈ List.range m,
      (fun j => decide (cs.length ≤ m + j)) j = true ↔
        (fun j => decide (cs.length - m ≤ j)) j = true := by
    intro j _
    simp only [decide_eq_true_eq]
    omega
  rw [List.countP_congr hcongr2, countP_range_ge]
  omega

/-! Section: Pointwise invariants preserved by the round-building loop -/

theorem pairUp_mem :
    ∀ (l : List Match) (pr : Match × Match), pr ∈ pairUp l → pr.1 ∈ l ∧ pr.2 ∈ l
  | m1 :: m2 :: rest, pr, hpr => by
      rw [pairUp] at hpr
      rcases List.mem_cons.mp hpr with h | h
      · subst h; exact ⟨List.mem_cons_self _ _, List.mem_cons_of_mem _ (List.mem_cons_self _ _)⟩
      · have := pairUp_mem rest pr h
        exact ⟨List.mem_cons_of_mem _ (List.mem_cons_of_mem _ this.1),
          List.mem_cons_of_mem _ (List.mem_cons_of_mem _ this.2)⟩
  | [], _, hpr => by simp [pairUp] at hpr
  | [_], _, hpr => by simp [pairUp] at hpr

theorem linkPairs_mem :
    ∀ (ps : List (Match × Match)) (nid : Nat) (x : Match), x ∈ linkPairs nid ps →
      ∃ pr ∈ ps, ∃ k, x = { pr.1 with next_match_id := some k } ∨
        x = { pr.2 with next_match_id := some k }
  | [], _, x, hx => by simp [linkPairs] at hx
  | (p1, p2) :: ps, nid, x, hx => by
      rw [linkPairs] at hx
      rcases List.mem_cons.mp hx with h | h
      · exact ⟨(p1, p2), List.mem_cons_self _ _, nid, Or.inl h⟩
      rcases List.mem_cons.mp h with h | h
      · exact ⟨(p1, p2), List.mem_cons_self _ _, nid, Or.inr h⟩
      · rcases linkPairs_mem ps (nid + 1) x h with ⟨pr, hpr, k, hk⟩
        exact ⟨pr, List.mem_cons_of_mem _ hpr, k, hk⟩

theorem nextRoundMatches_mem (d : Nat) (r : String) :
    ∀ (ps : List (Match × Match)) (nid : Nat) (x : Match),
      x ∈ nextRoundMatches d nid r ps →
      ∃ i p1 p2, x = mkNextMatch d i r p1 p2
  | [], _, x, hx => by simp [nextRoundMatches] at hx
  | (p1, p2) :: ps, nid, x, hx => by
      rw [nextRoundMatches] at hx
      rcases List.mem_cons.mp hx with h | h
      · exact ⟨nid, p1, p2, h⟩
      · exact nextRoundMatches_mem d r ps (nid + 1) x h

/-- Any property of a row that ignores `next_match_id` and holds for the
starting round and for every freshly created `Pending` upper-round row holds
for every row the loop emits. -/
theorem buildRoundsAux_pres (d : Nat) (P : Match → Prop)
    (hlink : ∀ x k, P x → P { x with next_match_id := some k })
    (hnew : ∀ i r p1 p2, P (mkNextMatch d i r p1 p2)) :
    ∀ (fuel : Nat) (current : List Match) (round_num nextId : Nat)
      (acc : List Match), (∀ x ∈ acc, P x) → (∀ x ∈ current, P x) →
      ∀ x ∈ buildRoundsAux d fuel current round_num nextId acc, P x := by
  intro fuel
  induction fuel with
  | zero =>
      intro current round_num nextId acc hacc hcur x hx
      rw [buildRoundsAux] at hx
      rcases List.mem_append.mp hx with h | h
      · exact hacc x h
      · exact hcur x h
  | succ f ih =>
      intro current round_num nextId acc hacc hcur x hx
      rw [buildRoundsAux] at hx
      by_cases h1 : current.length ≤ 1
      · rw [if_pos h1] at hx
        rcases List.mem_append.mp hx with h | h
        · exact hacc x h
        · exact hcur x h
      · rw [if_neg h1] at hx
        refine ih _ (round_num + 1) _ _ ?_ ?_ x hx
        · intro y hy
          rcases List.mem_append.mp hy with h | h
          · exact hacc y h
          · rcases linkPairs_mem _ _ y h with ⟨pr, hpr, k, hk⟩
            have hm := pairUp_mem current pr hpr
            rcases hk with hk | hk
            · rw [hk]; exact hlink _ _ (hcur _ hm.1)
            · rw [hk]; exact hlink _ _ (hcur _ hm.2)
        · intro y hy
          rcases nextRoundMatches_mem d _ _ _ y hy with ⟨i, p1, p2, hy'⟩
          rw [hy']; exact hnew i _ p1 p2

/-- The first deal pass fills slot 0 of every pairing whenever `m ≤ n`
(which the builder guarantees, since `m < n`). -/
theorem dealPairings_fst_isSome (cs : List Competitor) (m : Nat)
    (hm : m ≤ cs.length) :
    ∀ p ∈ dealPairings cs m, p.1.isSome := by
  intro p hp
  rw [dealPairings] at hp
  rcases List.mem_map.mp hp with ⟨j, hj, hp'⟩
  have hjm : j < m := List.mem_range.mp hj
  have hjl : j < cs.length := by omega
  rw [← hp']
  simp [List.getElem?_eq_getElem hjl]

/-- Every row of the starting round built from the deal satisfies: slot 1
occupied, and byes carry their lone competitor in slot 1 as winner. -/
theorem round1Matches_of_deal (d : Nat) :
    ∀ (ps : List (Option Competitor × Option Competitor)) (fid : Nat),
      (∀ p ∈ ps, p.1.isSome) →
      ∀ x ∈ round1Matches d fid ps,
        x.round_name = "Round 1" ∧ x.competitor1_id.isSome ∧
          (x.status = "Completed (Bye)" →
            ∃ c, x.competitor1_id = some c ∧ x.winner_id = some c ∧
              x.competitor2_id = none)
  | [], _, _, x, hx => by simp [round1Matches] at hx
  | p :: ps, fid, hps, x, hx => by
      rw [round1Matches] at hx
      rcases List.mem_cons.mp hx with h | h
      · subst h
        rcases p with ⟨p1, p2⟩
        have h1 : p1.isSome := hps (p1, p2) (List.mem_cons_self _ _)
        rcases p1 with _ | c1
        · simp at h1
        · rcases p2 with _ | c2
          · exact ⟨rfl, by simp [mkRound1Match], fun _ => ⟨c1.id, rfl, rfl, rfl⟩⟩
          · refine ⟨rfl, by simp [mkRound1Match], fun hst => ?_⟩
            simp [mkRound1Match] at hst
      · exact round1Matches_of_deal d ps (fid + 1)
          (fun q hq => hps q (List.mem_cons_of_mem _ hq)) x h

/-- On the success path `generate_bracket` is exactly the round-1 deal
followed by the bottom-up loop. -/
theorem generate_bracket_ok (d fid : Nat) (cs : List Competitor)
    (hn : 2 ≤ cs.length) :
    generate_bracket d cs fid = Except.ok (buildRoundsAux d
      (2 ^ ceilLog2 cs.length / 2)
      (round1Matches d fid (dealPairings cs (2 ^ ceilLog2 cs.length / 2))) 2
      (fid + 2 ^ ceilLog2 cs.length / 2) []) := by
  have hlt : ¬ cs.length < 2 := by omega
  simp only [generate_bracket, hlt, if_false]

/-- Every bye row a generated bracket contains is a round-1 row holding its
lone competitor in slot 1, equal to its winner. -/
theorem generate_bracket_byes_shape (d fid : Nat) (cs : List Competitor)
    (hn : 2 ≤ cs.length) :
    ∀ x ∈ buildRoundsAux d (2 ^ ceilLog2 cs.length / 2)
      (round1Matches d fid (dealPairings cs (2 ^ ceilLog2 cs.length / 2))) 2
      (fid + 2 ^ ceilLog2 cs.length / 2) [],
      x.status = "Completed (Bye)" →
        x.round_name = "Round 1" ∧ ∃ c, x.competitor1_id = some c ∧
          x.winner_id = some c ∧ x.competitor2_id = none := by
  have hm : 2 ^ ceilLog2 cs.length / 2 ≤ cs.length := by
    have h1 : 0 < ceilLog2 cs.length := ceilLog2_pos hn
    have h2 : 2 ^ (ceilLog2 cs.length - 1) < cs.length := half_bracketSize_lt hn
    rcases Nat.exists_eq_add_of_lt h1 with ⟨c, hcc⟩
    rw [hcc] at h2 ⊢
    simp only [Nat.zero_add, Nat.add_sub_cancel] at h2 ⊢
    rw [Nat.pow_succ, Nat.mul_div_cancel _ (by norm_num)]
    omega
  intro x hx
  refine buildRoundsAux_pres d
    (fun x => x.status = "Completed (Bye)" →
      x.round_name = "Round 1" ∧ ∃ c, x.competitor1_id = some c ∧
        x.winner_id = some c ∧ x.competitor2_id = none)
    (fun y k h => h) ?_ _ _ 2 _ [] (by simp) ?_ x hx
  · intro i r p1 p2 h
    simp [mkNextMatch] at h
  · intro y hy
    have := round1Matches_of_deal d _ fid
      (dealPairings_fst_isSome cs _ hm) y hy
    intro hst
    exact ⟨this.1, this.2.2 hst⟩

/-- Half the bracket size, as the builder computes it, is `2 ^ (c - 1)`. -/
theorem half_bracketSize_eq (n : Nat) (hn : 2 ≤ n) :
    2 ^ ceilLog2 n / 2 = 2 ^ (ceilLog2 n - 1) := by
  have h1 : 0 < ceilLog2 n := ceilLog2_pos hn
  rcases Nat.exists_eq_add_of_lt h1 with ⟨c, hcc⟩
  rw [hcc]
  simp only [Nat.zero_add, Nat.add_sub_cancel]
  rw [Nat.pow_succ, Nat.mul_div_cancel _ (by norm_num)]

/-! Section: Sample rows for concrete witnesses and counterexamples -/

def compA : Competitor := ⟨1, "Ana", 1⟩

def compB : Competitor := ⟨2, "Ben", 1⟩

def compC : Competitor := ⟨3, "Cal", 1⟩

def compD : Competitor := ⟨4, "Dee", 1⟩

def compE : Competitor := ⟨5, "Eli", 1⟩

/-! Section: Claim C1 -/

/-- C1 counterexample: with N = 3 competitors `generate_bracket` creates 3
match rows, not N - 1 = 2 as the claim states. -/
theorem c1_counterexample :
    (generate_bracket 1 [compA, compB, compC] 10).map List.length =
      Except.ok 3 ∧
    (generate_bracket 1 [compA, compB, compC] 10).map List.length ≠
      Except.ok ([compA, compB, compC].length - 1) := by
  constructor
  · rfl
  · decide

/-- C1 (amended): for every division with N ≥ 2 competitors,
`generate_bracket` creates exactly `bracketSize - 1` match records in total
across all rounds, where `bracketSize = 2 ^ ceil(log2 N)` — concretely
N=2 → 1, N=3 → 3, N=4 → 3, N=5 → 7. -/
theorem c1_total_match_count (div_id firstId : Nat) (cs : List Competitor)
    (hn : 2 ≤ cs.length) :
    ∃ ms, generate_bracket div_id cs firstId = Except.ok ms ∧
      ms.length = 2 ^ ceilLog2 cs.length - 1 :=
  generate_bracket_length div_id firstId cs hn

/-- C1 witness: the amended count at the concrete 5-competitor division
(bracket size 8, 7 matches). -/
theorem c1_total_match_count_witness :
    2 ≤ ([compA, compB, compC, compD, compE] : List Competitor).length ∧
      ∃ ms, generate_bracket 1 [compA, compB, compC, compD, compE] 10 =
        Except.ok ms ∧ ms.length = 2 ^ ceilLog2 5 - 1 :=
  ⟨by decide, c1_total_match_count 1 10 [compA, compB, compC, compD, compE]
    (by decide)⟩

/-! Section: Claim C3 -/

/-- C3 counterexample: a 2-competitor division yields a single match whose
`round_name` is `"Round 1"`, not `"Final"`. -/
theorem c3_counterexample :
    (generate_bracket 1 [compA, compB] 10).map
        (fun l => l.map (fun x => x.round_name)) = Except.ok ["Round 1"] ∧
      "Round 1" ≠ "Final" := by
  constructor
  · rfl
  · decide

/-- C3 (amended): for a division with exactly 2 competitors,
`generate_bracket` produces a single match whose `round_name` is
`"Round 1"`; no match in that bracket is labelled `"Final"` (the `while`
loop that names later rounds never runs). -/
theorem c3_two_competitor_bracket (d fid : Nat) (x y : Competitor) :
    generate_bracket d [x, y] fid = Except.ok
      [{ id := fid, division_id := d, ring_id := none,
         competitor1_id := some x.id, competitor2_id := some y.id,
         winner_id := none, next_match_id := none, match_number := none,
         status := "Pending", round_name := "Round 1" }] := by
  have h2 : ([x, y] : List Competitor).length = 2 := rfl
  rw [generate_bracket_ok d fid [x, y] (by rw [h2]), h2]
  rfl

/-! Section: Claim C4 -/

theorem half_bracketSize_le (n : Nat) (hn : 2 ≤ n) :
    2 ^ ceilLog2 n / 2 ≤ n := by
  rw [half_bracketSize_eq n hn]
  exact Nat.le_of_lt (half_bracketSize_lt hn)

theorem two_mul_half_bracketSize (n : Nat) (hn : 2 ≤ n) :
    2 * (2 ^ ceilLog2 n / 2) = 2 ^ ceilLog2 n := by
  rw [half_bracketSize_eq n hn]
  rcases Nat.exists_eq_add_of_lt (ceilLog2_pos hn) with ⟨c, hcc⟩
  rw [hcc]
  simp only [Nat.zero_add, Nat.add_sub_cancel]
  rw [Nat.pow_succ, Nat.mul_comm]

/-- C4: for every N ≥ 2, after `generate_bracket` the number of round-1
matches with status `"Completed (Bye)"` equals `bracketSize - N` where
`bracketSize = 2 ^ ceil(log2 N)`, and each bye match has its winner equal
to its single occupied slot's competitor (the slot is always slot 1). -/
theorem c4_bye_count (d fid : Nat) (cs : List Competitor)
    (hn : 2 ≤ cs.length) :
    ∃ ms, generate_bracket d cs fid = Except.ok ms ∧
      (ms.filter (fun x => x.round_name == "Round 1" &&
          x.status == "Completed (Bye)")).length =
        2 ^ ceilLog2 cs.length - cs.length ∧
      ∀ x ∈ ms, x.status = "Completed (Bye)" →
        x.round_name = "Round 1" ∧ ∃ c, x.competitor1_id = some c ∧
          x.winner_id = some c ∧ x.competitor2_id = none := by
  refine ⟨_, generate_bracket_ok d fid cs hn, ?_,
    generate_bracket_byes_shape d fid cs hn⟩
  have hshape := generate_bracket_byes_shape d fid cs hn
  rw [← List.countP_eq_length_filter]
  have hcongr : ∀ x ∈ buildRoundsAux d (2 ^ ceilLog2 cs.length / 2)
      (round1Matches d fid (dealPairings cs (2 ^ ceilLog2 cs.length / 2))) 2
      (fid + 2 ^ ceilLog2 cs.length / 2) [],
      ((fun x => x.round_name == "Round 1" && x.status == "Completed (Bye)") x
        = true) ↔
      ((fun x => x.status == "Completed (Bye)") x = true) := by
    intro x hx
    simp only [Bool.and_eq_true, beq_iff_eq]
    exact ⟨fun h => h.2, fun h => ⟨(hshape x hx h).1, h⟩⟩
  rw [List.countP_congr hcongr]
  have hr1len : (round1Matches d fid
      (dealPairings cs (2 ^ ceilLog2 cs.length / 2))).length =
      2 ^ (ceilLog2 cs.length - 1) := by
    rw [round1Matches_length, dealPairings_length, half_bracketSize_eq cs.length hn]
  have hfuel : ceilLog2 cs.length - 1 ≤ 2 ^ ceilLog2 cs.length / 2 := by
    rw [half_bracketSize_eq cs.length hn]
    exact Nat.le_of_lt (Nat.lt_two_pow _)
  have hcount := buildRoundsAux_countBye d (ceilLog2 cs.length - 1)
    (2 ^ ceilLog2 cs.length / 2) _ 2 (fid + 2 ^ ceilLog2 cs.length / 2) []
    hr1len hfuel
  simp only [countBye] at hcount
  rw [hcount, List.countP_nil]
  have hbyes := countBye_round1Matches d
    (dealPairings cs (2 ^ ceilLog2 cs.length / 2)) fid
  simp only [countBye] at hbyes
  rw [hbyes, countP_dealPairings cs _ ?_ ?_]
  · rw [two_mul_half_bracketSize cs.length hn]
    omega
  · rw [half_bracketSize_eq cs.length hn]
    exact half_bracketSize_lt hn
  · rw [two_mul_half_bracketSize cs.length hn]
    exact le_bracketSize cs.length

/-- C4 witness: 3 competitors, bracket size 4, exactly one round-1 bye. -/
theorem c4_bye_count_witness :
    2 ≤ ([compA, compB, compC] : List Competitor).length ∧
      ∃ ms, generate_bracket 1 [compA, compB, compC] 10 = Except.ok ms ∧
        (ms.filter (fun x => x.round_name == "Round 1" &&
            x.status == "Completed (Bye)")).length =
          2 ^ ceilLog2 ([compA, compB, compC] : List Competitor).length -
            ([compA, compB, compC] : List Competitor).length ∧
        ∀ x ∈ ms, x.status = "Completed (Bye)" →
          x.round_name = "Round 1" ∧ ∃ c, x.competitor1_id = some c ∧
            x.winner_id = some c ∧ x.competitor2_id = none :=
  ⟨by decide, c4_bye_count 1 10 [compA, compB, compC] (by decide)⟩

/-! Section: Claim C10 -/

/-- C10: for every N ≥ 2, the first deal pass occupies slot 0 of every
round-1 pairing (`N > bracketSize / 2`), so every round-1 match has
`competitor1_id` set, every bye holds its lone competitor in slot 1, and the
builder branch for a round-1 match with only slot 2 occupied
(`elif comp2 and not comp1`) is unreachable. -/
theorem c10_first_pass_fills_slot1 (d fid : Nat) (cs : List Competitor)
    (hn : 2 ≤ cs.length) :
    (∀ p ∈ dealPairings cs (2 ^ ceilLog2 cs.length / 2), p.1.isSome) ∧
    (∀ x ∈ round1Matches d fid
        (dealPairings cs (2 ^ ceilLog2 cs.length / 2)),
      x.competitor1_id.isSome) ∧
    ∃ ms, generate_bracket d cs fid = Except.ok ms ∧
      ∀ x ∈ ms, x.status = "Completed (Bye)" →
        ∃ c, x.competitor1_id = some c ∧ x.winner_id = some c ∧
          x.competitor2_id = none := by
  have hm : 2 ^ ceilLog2 cs.length / 2 ≤ cs.length := half_bracketSize_le cs.length hn
  refine ⟨dealPairings_fst_isSome cs _ hm, ?_, _,
    generate_bracket_ok d fid cs hn, ?_⟩
  · intro x hx
    exact ((round1Matches_of_deal d _ fid
      (dealPairings_fst_isSome cs _ hm)) x hx).2.1
  · intro x hx hst
    exact ((generate_bracket_byes_shape d fid cs hn) x hx hst).2

/-- C10 witness: the 5-competitor division (bracket size 8, three byes). -/
theorem c10_first_pass_fills_slot1_witness :
    2 ≤ ([compA, compB, compC, compD, compE] : List Competitor).length ∧
      ((∀ p ∈ dealPairings [compA, compB, compC, compD, compE]
          (2 ^ ceilLog2 5 / 2), p.1.isSome) ∧
      (∀ x ∈ round1Matches 1 10
          (dealPairings [compA, compB, compC, compD, compE] (2 ^ ceilLog2 5 / 2)),
        x.competitor1_id.isSome) ∧
      ∃ ms, generate_bracket 1 [compA, compB, compC, compD, compE] 10 =
          Except.ok ms ∧
        ∀ x ∈ ms, x.status = "Completed (Bye)" →
          ∃ c, x.competitor1_id = some c ∧ x.winner_id = some c ∧
            x.competitor2_id = none) :=
  ⟨by decide,
    c10_first_pass_fills_slot1 1 10 [compA, compB, compC, compD, compE] (by decide)⟩

/-! Section: Row lookup and update lemmas for the advancement engine -/

theorem falsyId_some_ne {w : Nat} (hw : w ≠ 0) : falsyId (some w) = false := by
  simp [falsyId, hw]

theorem advanceInto_id (nm : Match) (w : Nat) : (advanceInto nm w).id = nm.id := by
  unfold advanceInto
  split
  · rfl
  split <;> rfl

/-- Replacing the rows with one id leaves lookups of a different id alone
(provided the replacement does not carry the looked-up id). -/
theorem find?_id_map_update_ne (l : List Match) (m2 : Match) (j nid : Nat)
    (hne : nid ≠ j) (hm2 : m2.id ≠ nid) :
    (l.map (fun x => if x.id == j then m2 else x)).find?
        (fun x => x.id == nid) =
      l.find? (fun x => x.id == nid) := by
  induction l with
  | nil => rfl
  | cons a l ih =>
      rw [List.map_cons]
      by_cases ha : (a.id == j) = true
      · rw [if_pos ha]
        have ha' : a.id = j := by simpa using ha
        have h1 : (m2.id == nid) = false := by
          simp only [beq_eq_false_iff_ne, ne_eq]
          omega
        have h2 : (a.id == nid) = false := by
          simp only [beq_eq_false_iff_ne, ne_eq, ha']
          omega
        simp only [List.find?_cons, h1, h2]
        exact ih
      · rw [if_neg ha]
        cases hx : (a.id == nid) with
        | true => simp only [List.find?_cons, hx]
        | false =>
            simp only [List.find?_cons, hx]
            exact ih

/-- Replacing the rows with the looked-up id makes the lookup return the
replacement. -/
theorem find?_id_map_update_eq (l : List Match) (m2 : Match) (j i : Nat)
    (hj : j = i) (hid : m2.id = i)
    (h : (l.find? (fun x => x.id == i)).isSome) :
    (l.map (fun x => if x.id == j then m2 else x)).find?
      (fun x => x.id == i) = some m2 := by
  induction l with
  | nil => simp [List.find?] at h
  | cons a l ih =>
      rw [List.map_cons]
      by_cases ha : (a.id == i) = true
      · have haj : (a.id == j) = true := by
          simp only [beq_iff_eq] at *
          omega
        rw [if_pos haj]
        have hm2 : (m2.id == i) = true := by simp [hid]
        simp only [List.find?_cons, hm2]
      · have ha' : (a.id == i) = false := by
          cases hv : (a.id == i) with
          | true => exact absurd hv ha
          | false => rfl
        have haj : (a.id == j) = false := by
          simp only [beq_iff_eq] at ha
          simp only [beq_eq_false_iff_ne, ne_eq]
          omega
        rw [if_neg (by simp [haj])]
        simp only [List.find?_cons, ha'] at h ⊢
        exact ih h

/-- The id of a row returned by an id lookup. -/
theorem find?_id_eq {l : List Match} {i : Nat} {m : Match}
    (h : l.find? (fun x => x.id == i) = some m) : m.id = i := by
  have := List.find?_some h
  simpa using this

/-! Section: Claim C2 -/

/-- C2: for every `recordResult` call (either route) with status
`Completed`/`Disqualification` and a non-null winner id, if the match has a
`next_match` then the winner is written into `next_match`'s slot 1 when
slot 1 is empty, otherwise into slot 2 when slot 2 is empty, and when both
slots are occupied the winner is not placed anywhere and no error is raised
(the call still returns success). -/
theorem c2_winner_placement (db : DB) (mid nid w : Nat) (m nm : Match)
    (status : String)
    (hst : status = "Completed" ∨ status = "Disqualification")
    (hm : db.matchRows.find? (fun x => x.id == mid) = some m)
    (hw : w ≠ 0)
    (hnext : m.next_match_id = some nid)
    (hne : nid ≠ mid)
    (hnm : db.matchRows.find? (fun x => x.id == nid) = some nm) :
    record_result db mid status (some w) =
      (none, updateMatch
        (updateMatch db { m with status := status, winner_id := some w })
        (advanceInto nm w)) ∧
    ui_record_result db mid status (some w) =
      (none, updateMatch
        (updateMatch db { m with status := status, winner_id := some w })
        (advanceInto nm w)) ∧
    (updateMatch
        (updateMatch db { m with status := status, winner_id := some w })
        (advanceInto nm w)).matchRows.find? (fun x => x.id == nid) =
      some (advanceInto nm w) ∧
    (nm.competitor1_id = none →
      advanceInto nm w = { nm with competitor1_id := some w }) ∧
    (∀ a, nm.competitor1_id = some a → a ≠ 0 → nm.competitor2_id = none →
      advanceInto nm w = { nm with competitor2_id := some w }) ∧
    (∀ a b, nm.competitor1_id = some a → a ≠ 0 → nm.competitor2_id = some b →
      b ≠ 0 → advanceInto nm w = nm) := by
  have hmid : m.id = mid := find?_id_eq hm
  have hnmid : nm.id = nid := find?_id_eq hnm
  have hcond : (status == "Completed" || status == "Disqualification") = true := by
    rcases hst with h | h <;> subst h <;> rfl
  have hip : (status == "In Progress") = false := by
    rcases hst with h | h <;> subst h <;> rfl
  have hfw : falsyId (some w) = false := falsyId_some_ne hw
  have hdb1 : (updateMatch db
      { m with status := status, winner_id := some w }).matchRows.find?
        (fun x => x.id == nid) = some nm := by
    simp only [updateMatch]
    rw [find?_id_map_update_ne _ _ m.id nid (by omega)
      (by simp only [hmid]; omega)]
    exact hnm
  have hdb1n := hdb1
  rw [hnext] at hdb1n
  refine ⟨?_, ?_, ?_, ?_, ?_, ?_⟩
  · simp only [record_result, hm, hcond, hfw, Bool.false_eq_true, if_false,
      if_true, eq_self_iff_true, hnext, Option.getD_some, hdb1n]
  · simp only [ui_record_result, hm, hip, hcond, hfw, Bool.false_eq_true,
      if_false, if_true, eq_self_iff_true, hnext, Option.getD_some, hdb1n]
  · have hdb1' := hdb1
    simp only [updateMatch] at hdb1' ⊢
    refine find?_id_map_update_eq _ _ _ _
      ((advanceInto_id nm w).trans hnmid) ((advanceInto_id nm w).trans hnmid) ?_
    rw [hdb1']
    rfl
  · intro h1
    simp [advanceInto, falsyId, h1]
  · intro a h1 ha h2
    simp [advanceInto, falsyId, h1, h2, ha]
  · intro a b h1 ha h2 hb
    simp [advanceInto, falsyId, h1, h2, ha, hb]

/-- A round-1 match (id 1) feeding the final (id 2). -/
def matchOne : Match :=
  { id := 1, division_id := 1, ring_id := none, competitor1_id := some 1,
    competitor2_id := some 2, winner_id := none, next_match_id := some 2,
    match_number := none, status := "Pending", round_name := "Round 1" }

/-- The final (id 2) with both slots still empty. -/
def matchTwo : Match :=
  { id := 2, division_id := 1, ring_id := none, competitor1_id := none,
    competitor2_id := none, winner_id := none, next_match_id := none,
    match_number := none, status := "Pending", round_name := "Final" }

/-- A two-match database for advancement-engine witnesses. -/
def advDB : DB :=
  { divisions := [⟨1, "Lightweight"⟩], competitors := [compA, compB],
    matchRows := [matchOne, matchTwo] }

/-- C2 witness: completing match 1 with winner 1 places the winner into the
final's empty slot 1. -/
theorem c2_winner_placement_witness :
    (("Completed" : String) = "Completed" ∨
        ("Completed" : String) = "Disqualification") ∧
    advDB.matchRows.find? (fun x => x.id == 1) = some matchOne ∧
    (1 : Nat) ≠ 0 ∧ matchOne.next_match_id = some 2 ∧ (2 : Nat) ≠ 1 ∧
    advDB.matchRows.find? (fun x => x.id == 2) = some matchTwo ∧
    (record_result advDB 1 "Completed" (some 1) =
      (none, updateMatch
        (updateMatch advDB { matchOne with status := "Completed", winner_id := some 1 })
        (advanceInto matchTwo 1)) ∧
    ui_record_result advDB 1 "Completed" (some 1) =
      (none, updateMatch
        (updateMatch advDB { matchOne with status := "Completed", winner_id := some 1 })
        (advanceInto matchTwo 1)) ∧
    (updateMatch
        (updateMatch advDB { matchOne with status := "Completed", winner_id := some 1 })
        (advanceInto matchTwo 1)).matchRows.find? (fun x => x.id == 2) =
      some (advanceInto matchTwo 1) ∧
    (matchTwo.competitor1_id = none →
      advanceInto matchTwo 1 = { matchTwo with competitor1_id := some 1 }) ∧
    (∀ a, matchTwo.competitor1_id = some a → a ≠ 0 →
      matchTwo.competitor2_id = none →
      advanceInto matchTwo 1 = { matchTwo with competitor2_id := some 1 }) ∧
    (∀ a b, matchTwo.competitor1_id = some a → a ≠ 0 →
      matchTwo.competitor2_id = some b → b ≠ 0 →
      advanceInto matchTwo 1 = matchTwo)) :=
  ⟨by decide, by decide, by decide, by decide, by decide, by decide,
    c2_winner_placement advDB 1 2 1 matchOne matchTwo "Completed"
      (by decide) (by decide) (by decide) (by decide) (by decide) (by decide)⟩

/-! Section: Claim C5 -/

/-- C5: a `recordResult` call (either route) with status
`Completed`/`Disqualification` and no winner id fails with the
`MissingWinner` error and commits nothing: the targeted match and every
other row are unchanged (the session-only `match.status` write is rolled
back because the error return skips `db.session.commit()`). -/
theorem c5_missing_winner (db : DB) (mid : Nat) (m : Match) (status : String)
    (hst : status = "Completed" ∨ status = "Disqualification")
    (hm : db.matchRows.find? (fun x => x.id == mid) = some m) :
    record_result db mid status none =
      (some RecordError.missingWinner, db) ∧
    ui_record_result db mid status none =
      (some RecordError.missingWinner, db) := by
  have hcond : (status == "Completed" || status == "Disqualification") = true := by
    rcases hst with h | h <;> subst h <;> rfl
  have hip : (status == "In Progress") = false := by
    rcases hst with h | h <;> subst h <;> rfl
  constructor
  · simp only [record_result, hm, hcond, if_true, eq_self_iff_true, falsyId,
      if_true]
  · simp only [ui_record_result, hm, hip, Bool.false_eq_true, if_false,
      hcond, if_true, eq_self_iff_true]

/-- C5 witness: a `Completed` result for match 1 without a winner. -/
theorem c5_missing_winner_witness :
    (("Completed" : String) = "Completed" ∨
        ("Completed" : String) = "Disqualification") ∧
    advDB.matchRows.find? (fun x => x.id == 1) = some matchOne ∧
    (record_result advDB 1 "Completed" none =
        (some RecordError.missingWinner, advDB) ∧
      ui_record_result advDB 1 "Completed" none =
        (some RecordError.missingWinner, advDB)) :=
  ⟨by decide, by decide,
    c5_missing_winner advDB 1 matchOne "Completed" (by decide) (by decide)⟩

/-! Section: Claim C6 -/

/-- A finished final: winner already recorded. -/
def doneMatch : Match :=
  { id := 7, division_id := 1, ring_id := none, competitor1_id := some 1,
    competitor2_id := some 2, winner_id := some 1, next_match_id := none,
    match_number := none, status := "Completed", round_name := "Final" }

/-- A database holding only the finished final. -/
def doneDB : DB :=
  { divisions := [⟨1, "Lightweight"⟩], competitors := [compA, compB],
    matchRows := [doneMatch] }

/-- C6 counterexample: match 7 is `Completed` with winner 1, yet a second
`record_result` call with winner 2 succeeds and overwrites the winner, and a
`ui_record_result` call with `"In Progress"` moves the status back to a
non-terminal state — terminal states do revert. -/
theorem c6_counterexample :
    doneMatch.status = "Completed" ∧ doneMatch.winner_id = some 1 ∧
    (record_result doneDB 7 "Completed" (some 2)).1 = none ∧
    ((record_result doneDB 7 "Completed" (some 2)).2.matchRows.find?
        (fun x => x.id == 7)).map (fun x => x.winner_id) = some (some 2) ∧
    (ui_record_result doneDB 7 "In Progress" none).1 = none ∧
    ((ui_record_result doneDB 7 "In Progress" none).2.matchRows.find?
        (fun x => x.id == 7)).map (fun x => x.status) =
      some "In Progress" := by
  decide

/-- C6 (amended): the advancement engine has no terminal-state guard: a
subsequent `record_result` on a match whose winner is already set
unconditionally overwrites status and winner, and a `ui_record_result` with
`"In Progress"` moves a terminal status back to a non-terminal one. -/
theorem c6_no_terminal_guard (db : DB) (mid w : Nat) (m : Match)
    (hm : db.matchRows.find? (fun x => x.id == mid) = some m)
    (hterm : m.status = "Completed" ∨ m.status = "Disqualification" ∨
      m.status = "Completed (Bye)")
    (hwset : m.winner_id.isSome)
    (hw : w ≠ 0)
    (hnonext : m.next_match_id = none) :
    record_result db mid "Completed" (some w) =
      (none, updateMatch db { m with status := "Completed", winner_id := some w }) ∧
    ui_record_result db mid "In Progress" none =
      (none, updateMatch db { m with status := "In Progress" }) := by
  have hfw : falsyId (some w) = false := falsyId_some_ne hw
  constructor
  · simp only [record_result, hm, hfw, Bool.false_eq_true, if_false,
      beq_self_eq_true, Bool.true_or, if_true, eq_self_iff_true,
      Option.getD_some, hnonext]
  · simp only [ui_record_result, hm, beq_self_eq_true, if_true,
      eq_self_iff_true]

/-- C6 witness: the amended statement at the finished final. -/
theorem c6_no_terminal_guard_witness :
    doneDB.matchRows.find? (fun x => x.id == 7) = some doneMatch ∧
    (doneMatch.status = "Completed" ∨ doneMatch.status = "Disqualification" ∨
      doneMatch.status = "Completed (Bye)") ∧
    doneMatch.winner_id.isSome = true ∧ (2 : Nat) ≠ 0 ∧
    doneMatch.next_match_id = none ∧
    (record_result doneDB 7 "Completed" (some 2) =
      (none, updateMatch doneDB
        { doneMatch with status := "Completed", winner_id := some 2 }) ∧
    ui_record_result doneDB 7 "In Progress" none =
      (none, updateMatch doneDB { doneMatch with status := "In Progress" })) :=
  ⟨by decide, by decide, by decide, by decide, by decide,
    c6_no_terminal_guard doneDB 7 2 doneMatch (by decide) (by decide)
      (by decide) (by decide) (by decide)⟩

/-! Section: Claim C9 -/

/-- C9 counterexample: the JSON API route `record_result` with status
`"In Progress"` does not succeed — the view falls through without a commit
or response (Flask 500), and the committed state still shows the old status
`"Pending"`. -/
theorem c9_counterexample :
    record_result advDB 1 "In Progress" none =
      (some RecordError.noResponse, advDB) ∧
    (advDB.matchRows.find? (fun x => x.id == 1)).map (fun x => x.status) =
      some "Pending" := by
  decide

/-- C9 (amended): via the UI route `ui_record_result`, an `"In Progress"`
result succeeds without a winner id, sets only that match's status, and
performs no advancement: every row with a different id is carried over
unchanged.  The JSON API route instead commits nothing and returns no
response. -/
theorem c9_in_progress_ui (db : DB) (mid : Nat) (m : Match) (wid : Option Nat)
    (hm : db.matchRows.find? (fun x => x.id == mid) = some m) :
    ui_record_result db mid "In Progress" wid =
      (none, { db with matchRows := db.matchRows.map (fun x =>
        if x.id == m.id then { m with status := "In Progress" } else x) }) ∧
    (∀ x ∈ db.matchRows, x.id ≠ m.id →
      x ∈ (ui_record_result db mid "In Progress" wid).2.matchRows) ∧
    record_result db mid "In Progress" wid =
      (some RecordError.noResponse, db) := by
  have hmain : ui_record_result db mid "In Progress" wid =
      (none, updateMatch db { m with status := "In Progress" }) := by
    simp only [ui_record_result, hm, beq_self_eq_true, if_true,
      eq_self_iff_true]
  refine ⟨?_, ?_, ?_⟩
  · rw [hmain]
    simp only [updateMatch]
  · intro x hx hne
    rw [hmain]
    simp only [updateMatch]
    have hcond : (x.id == ({ m with status := "In Progress" } : Match).id) = false := by
      simp only [beq_eq_false_iff_ne, ne_eq]
      exact fun h => hne h
    have hfix : (if (x.id == ({ m with status := "In Progress" } : Match).id) = true
        then ({ m with status := "In Progress" } : Match) else x) = x := by
      rw [hcond]
      simp
    rw [← hfix]
    exact List.mem_map_of_mem _ hx
  · simp only [record_result, hm]
    rfl

/-- C9 witness: the amended statement at the pending round-1 match. -/
theorem c9_in_progress_ui_witness :
    advDB.matchRows.find? (fun x => x.id == 1) = some matchOne ∧
    (ui_record_result advDB 1 "In Progress" none =
      (none, { advDB with matchRows := advDB.matchRows.map (fun x =>
        if x.id == matchOne.id then { matchOne with status := "In Progress" }
        else x) }) ∧
    (∀ x ∈ advDB.matchRows, x.id ≠ matchOne.id →
      x ∈ (ui_record_result advDB 1 "In Progress" none).2.matchRows) ∧
    record_result advDB 1 "In Progress" none =
      (some RecordError.noResponse, advDB)) :=
  ⟨by decide, c9_in_progress_ui advDB 1 matchOne none (by decide)⟩

/-! Section: Claim C7 -/

/-- A division that still owns a competitor. -/
def c7DB : DB :=
  { divisions := [⟨1, "Heavyweight"⟩], competitors := [compA],
    matchRows := [matchOne] }

/-- C7 counterexample: the JSON API route `edit_division` (DELETE) does not
remove the division's matches or competitors — with children present the
lone `db.session.delete(division)` fails the NOT NULL child constraint and
nothing at all is deleted; the competitor referencing division 1 is still
there. -/
theorem c7_counterexample :
    edit_division_delete c7DB 1 = (some RecordError.internalError, c7DB) ∧
    compA ∈ (edit_division_delete c7DB 1).2.competitors ∧
    compA.division_id = 1 ∧
    matchOne ∈ (edit_division_delete c7DB 1).2.matchRows ∧
    matchOne.division_id = 1 := by
  decide

/-- C7 (amended): only the UI route `ui_delete_division` cascades, removing
every match and competitor of the division before the division itself; the
JSON API route `edit_division` (DELETE) removes no matches or competitors —
when any competitor still references the division the delete fails and the
state is unchanged. -/
theorem c7_cascade_ui_only (db : DB) (div_id : Nat) (d : Division)
    (hd : db.divisions.find? (fun x => x.id == div_id) = some d) :
    (ui_delete_division db div_id =
      (none,
        { divisions := db.divisions.filter (fun x => !(x.id == div_id))
          competitors := db.competitors.filter (fun c => !(c.division_id == div_id))
          matchRows := db.matchRows.filter (fun m => !(m.division_id == div_id)) }) ∧
      (∀ mm ∈ (ui_delete_division db div_id).2.matchRows,
        mm.division_id ≠ div_id) ∧
      (∀ c ∈ (ui_delete_division db div_id).2.competitors,
        c.division_id ≠ div_id) ∧
      (∀ dv ∈ (ui_delete_division db div_id).2.divisions, dv.id ≠ div_id)) ∧
    (db.competitors.any (fun c => c.division_id == div_id) = true →
      edit_division_delete db div_id =
        (some RecordError.internalError, db)) := by
  have hmain : ui_delete_division db div_id =
      (none,
        { divisions := db.divisions.filter (fun x => !(x.id == div_id))
          competitors := db.competitors.filter (fun c => !(c.division_id == div_id))
          matchRows := db.matchRows.filter (fun m => !(m.division_id == div_id)) }) := by
    simp only [ui_delete_division, hd]
  refine ⟨⟨hmain, ?_, ?_, ?_⟩, ?_⟩
  · intro mm hmm
    rw [hmain] at hmm
    have := (List.mem_filter.mp hmm).2
    simpa using this
  · intro c hc
    rw [hmain] at hc
    have := (List.mem_filter.mp hc).2
    simpa using this
  · intro dv hdv
    rw [hmain] at hdv
    have := (List.mem_filter.mp hdv).2
    simpa using this
  · intro hany
    simp only [edit_division_delete, hd, hany, Bool.true_or, if_true]

/-- C7 witness: the amended statement at the one-competitor division. -/
theorem c7_cascade_ui_only_witness :
    c7DB.divisions.find? (fun x => x.id == 1) = some ⟨1, "Heavyweight"⟩ ∧
    ((ui_delete_division c7DB 1 =
      (none,
        { divisions := c7DB.divisions.filter (fun x => !(x.id == 1))
          competitors := c7DB.competitors.filter (fun c => !(c.division_id == 1))
          matchRows := c7DB.matchRows.filter (fun m => !(m.division_id == 1)) }) ∧
      (∀ mm ∈ (ui_delete_division c7DB 1).2.matchRows, mm.division_id ≠ 1) ∧
      (∀ c ∈ (ui_delete_division c7DB 1).2.competitors, c.division_id ≠ 1) ∧
      (∀ dv ∈ (ui_delete_division c7DB 1).2.divisions, dv.id ≠ 1)) ∧
    (c7DB.competitors.any (fun c => c.division_id == 1) = true →
      edit_division_delete c7DB 1 = (some RecordError.internalError, c7DB))) :=
  ⟨by decide, c7_cascade_ui_only c7DB 1 ⟨1, "Heavyweight"⟩ (by decide)⟩

/-! Section: Claim C8 -/

/-- A decided final whose winner id (9) resolves to a competitor that sits
in no slot of the match (the engine never validates winner membership). -/
def c8Match : Match :=
  { id := 30, division_id := 4, ring_id := some 2, competitor1_id := some 1,
    competitor2_id := none, winner_id := some 9, next_match_id := none,
    match_number := some 225, status := "Completed", round_name := "Final" }

/-- First read-state: the winner competitor is named `"Wyn"`. -/
def c8DB1 : DB :=
  { divisions := [⟨4, "Featherweight"⟩],
    competitors := [compA, ⟨9, "Wyn", 4⟩], matchRows := [c8Match] }

/-- Second read-state: identical except the winner is named `"Zed"`. -/
def c8DB2 : DB :=
  { divisions := [⟨4, "Featherweight"⟩],
    competitors := [compA, ⟨9, "Zed", 4⟩], matchRows := [c8Match] }

/-- C8 counterexample: `get_bracket` output is identical on two states that
differ only in the winner's name, so the entries contain no resolved winner
display data — only the bare `winner_id`.  The spec-modelled serializer
(which does resolve the winner) distinguishes the two states. -/
theorem c8_counterexample :
    get_bracket c8DB1 4 = get_bracket c8DB2 4 ∧
    (c8DB1.competitors.find? (fun c => c.id == 9)).map (fun c => c.name) =
      some "Wyn" ∧
    (c8DB2.competitors.find? (fun c => c.id == 9)).map (fun c => c.name) =
      some "Zed" ∧
    get_bracket_spec c8DB1 4 ≠ get_bracket_spec c8DB2 4 := by
  decide

/-- C8 (amended): for every division that has matches, `get_bracket`
returns one entry per match with resolved display data (id and name) for
slot 1 and slot 2, plus round name, status, ring assignment and
`next_match` linkage — but the winner is serialized as the bare
`winner_id`, not resolved to display data. -/
theorem c8_bracket_serialization (db : DB) (div_id : Nat)
    (hne : db.matchRows.filter (fun m => m.division_id == div_id) ≠ []) :
    (∃ es, get_bracket db div_id = Except.ok es ∧
      List.Forall₂ (fun (m : Match) (e : BracketEntry) =>
          e.match_id = m.id ∧ e.round_name = m.round_name ∧
          e.status = m.status ∧ e.ring_id = m.ring_id ∧
          e.next_match_id = m.next_match_id ∧
          e.competitor1 = get_comp_data db m.competitor1_id ∧
          e.competitor2 = get_comp_data db m.competitor2_id ∧
          e.winner_id = m.winner_id)
        (db.matchRows.filter (fun m => m.division_id == div_id)) es) ∧
    (∀ cid c, cid ≠ 0 →
      db.competitors.find? (fun x => x.id == cid) = some c →
      get_comp_data db (some cid) = some { id := c.id, name := c.name }) ∧
    get_comp_data db none = none := by
  have hie : (db.matchRows.filter (fun m => m.division_id == div_id)).isEmpty
      = false := by
    cases hv : (db.matchRows.filter (fun m => m.division_id == div_id)).isEmpty with
    | true => exact absurd (List.isEmpty_iff.mp hv) hne
    | false => rfl
  refine ⟨⟨(db.matchRows.filter (fun m => m.division_id == div_id)).map (fun m =>
      { match_id := m.id, round_name := m.round_name, status := m.status,
        ring_id := m.ring_id, next_match_id := m.next_match_id,
        competitor1 := get_comp_data db m.competitor1_id,
        competitor2 := get_comp_data db m.competitor2_id,
        winner_id := m.winner_id }), ?_, ?_⟩, ?_, rfl⟩
  · simp only [get_bracket, hie, Bool.false_eq_true, if_false]
  · rw [List.forall₂_map_right_iff]
    rw [List.forall₂_same]
    intro x _
    exact ⟨rfl, rfl, rfl, rfl, rfl, rfl, rfl, rfl⟩
  · intro cid c hcid hfind
    simp only [get_comp_data, falsyId, beq_iff_eq, hcid, if_false,
      Option.getD_some, hfind]

/-- C8 witness: the amended serialization statement at the decided final. -/
theorem c8_bracket_serialization_witness :
    c8DB1.matchRows.filter (fun m => m.division_id == 4) ≠ [] ∧
    ((∃ es, get_bracket c8DB1 4 = Except.ok es ∧
      List.Forall₂ (fun (m : Match) (e : BracketEntry) =>
          e.match_id = m.id ∧ e.round_name = m.round_name ∧
          e.status = m.status ∧ e.ring_id = m.ring_id ∧
          e.next_match_id = m.next_match_id ∧
          e.competitor1 = get_comp_data c8DB1 m.competitor1_id ∧
          e.competitor2 = get_comp_data c8DB1 m.competitor2_id ∧
          e.winner_id = m.winner_id)
        (c8DB1.matchRows.filter (fun m => m.division_id == 4)) es) ∧
    (∀ cid c, cid ≠ 0 →
      c8DB1.competitors.find? (fun x => x.id == cid) = some c →
      get_comp_data c8DB1 (some cid) = some { id := c.id, name := c.name }) ∧
    get_comp_data c8DB1 none = none) :=
  ⟨by decide, c8_bracket_serialization c8DB1 4 (by decide)⟩
